import Mathlib

set_option maxRecDepth 100000

/-!
Shallow embedding of the pretty-print-object renderer (src/index.ts) and
proofs about it.

Modelling conventions:
* JavaScript values are modelled by `JVal`.  Composites (arrays and plain
  objects) live in a heap (`List JNode`) and are referred to by address, so
  that reference identity — which the renderer's cycle detection is based
  on — is explicit.  Cyclic value graphs are heaps whose nodes point back
  at earlier addresses.
* Primitive values that the renderer only ever passes through `String(...)`
  (numbers, functions, symbols, regexps, dates) carry their JavaScript
  string form directly.
* The module-global `seen` array of the source is threaded explicitly
  through the recursion as a `List Nat` of addresses; `push` adds at the
  head and `pop` removes the head (same stack discipline, and membership
  checks are order-independent, matching `seen.indexOf(input) !== -1`).
* The unbounded JavaScript recursion is driven by a fuel parameter; `none`
  means the fuel ran out.  `prettyPrint_total_aux` below proves that fuel
  `heap.length + 1` always suffices, so `render` (the top-level entry with
  that fuel and an empty `seen`) is total: the fuel is an artefact of the
  embedding, not of the algorithm.
-/

namespace PrettyPrintObject

/-- Property keys of a JavaScript object as passed to `filter`/`transform`:
string-named keys, symbol-named keys (identified by their description), or
array indices. -/
inductive JProp where
  | str : String → JProp
  | sym : String → JProp
  | idx : Nat → JProp
deriving DecidableEq

/-- Keys of a keyed composite: string-named or symbol-named. -/
inductive JKey where
  | str : String → JKey
  | sym : String → JKey
deriving DecidableEq

/-- JavaScript values as dispatched on by `prettyPrint` (src/index.ts lines
136-149 and 151/174): primitives carry the text `String(value)` would
produce; `ref` is a reference (by address) to a composite in the heap. -/
inductive JVal where
  | vnull
  | vundef
  | vnum (s : String)
  | vbool (b : Bool)
  | vfunc (s : String)
  | vsym (desc : String)
  | vregexp (s : String)
  | vdate (iso : String)
  | vstr (s : String)
  | ref (addr : Nat)
deriving DecidableEq

/-- Heap nodes: an array of values, or an object with its own enumerable
string-named properties (in enumeration order, as `Object.keys` yields
them) and its own symbol-named properties (in discovery order, each with
its `enumerable` attribute, as `Object.getOwnPropertySymbols` yields
them).  String keys of one object are distinct, so pairing each key with
its value models `input[el]` directly. -/
inductive JNode where
  | arr (elems : List JVal)
  | obj (strProps : List (String × JVal)) (symProps : List (String × Bool × JVal))
deriving DecidableEq

/-- The options record (src/index.ts lines 1-39), after merging with the
defaults.  `filter` and `transform` receive the composite by its address
(its reference identity). -/
structure PPOptions where
  indent : String
  singleQuotes : Bool
  filter : Option (Nat → JProp → Bool)
  transform : Option (Nat → JProp → String → String)
  inlineCharacterLimit : Option Nat

/-- The default options (src/index.ts lines 87-90). -/
def defaultOpts : PPOptions :=
  PPOptions.mk "\t" true none none none

/-- The whitespace tokens (src/index.ts lines 94-110). -/
structure Tokens where
  newLine : String
  newLineOrSpace : String
  pad : String
  indent : String

/-- Sentinel for a newline (src/index.ts line 105). -/
def sentNL : String := "@@__PRETTY_PRINT_NEW_LINE__@@"

/-- Sentinel for a newline-or-space (src/index.ts line 106). -/
def sentNLS : String := "@@__PRETTY_PRINT_NEW_LINE_OR_SPACE__@@"

/-- Sentinel for the current pad (src/index.ts line 107). -/
def sentPad : String := "@@__PRETTY_PRINT_PAD__@@"

/-- Sentinel for one indent step beyond the pad (src/index.ts line 108). -/
def sentIndent : String := "@@__PRETTY_PRINT_INDENT__@@"

/-- Token selection (src/index.ts lines 96-110): real whitespace when
`inlineCharacterLimit` is unset, sentinel placeholders when it is set. -/
def mkTokens (opts : PPOptions) (pad : String) : Tokens :=
  match opts.inlineCharacterLimit with
  | none => Tokens.mk "\n" "\n" pad (pad ++ opts.indent)
  | some _ => Tokens.mk sentNL sentNLS sentPad sentIndent

/-- Global replacement of two alternative patterns, scanning left to right
and preferring `p1` — the semantics of `string.replace(new RegExp(A + "|" +
B, "g"), r)` for the literal (metacharacter-free) sentinel patterns the
source uses.  The fuel is the length of the scanned list; since both
patterns used are nonempty, every step consumes at least one character, so
the fuel never runs out. -/
def replAuxF (p1 p2 r : List Char) : Nat → List Char → List Char
  | 0, l => l
  | _, [] => []
  | fuel+1, c :: rest =>
    if p1.isPrefixOf (c :: rest) then r ++ replAuxF p1 p2 r fuel ((c :: rest).drop p1.length)
    else if p2.isPrefixOf (c :: rest) then r ++ replAuxF p1 p2 r fuel ((c :: rest).drop p2.length)
    else c :: replAuxF p1 p2 r fuel rest

/-- String-level wrapper for `replAuxF`. -/
def replaceAlt2 (p1 p2 repl s : String) : String :=
  String.mk (replAuxF p1.data p2.data repl.data s.data.length s.data)

/-- Global replacement of a single literal pattern, the semantics of
`string.replace(new RegExp(A, "g"), r)` for the sentinel patterns. -/
def replace1 (pat repl s : String) : String :=
  replaceAlt2 pat pat repl s

/-- The one-line candidate built by `expandWhiteSpace` (src/index.ts lines
117-120): delete all newline sentinels, replace newline-or-space sentinels
by a space, delete all pad and indent sentinels. -/
def oneLinedOf (s : String) : String :=
  replaceAlt2 sentPad sentIndent "" (replace1 sentNLS " " (replace1 sentNL "" s))

/-- The multi-line form materialised by `expandWhiteSpace` (src/index.ts
lines 126-129): newline and newline-or-space sentinels become a real
newline, the pad sentinel becomes `pad`, the indent sentinel becomes
`pad + indent`. -/
def multiLinedOf (opts : PPOptions) (pad s : String) : String :=
  replace1 sentIndent (pad ++ opts.indent)
    (replace1 sentPad pad (replaceAlt2 sentNL sentNLS "\n" s))

/-- Whitespace compaction, `expandWhiteSpace` (src/index.ts lines 112-130):
a no-op when `inlineCharacterLimit` is unset; otherwise return the one-line
candidate when its length is at most the limit, else the multi-line
form. -/
def expandWS (opts : PPOptions) (pad s : String) : String :=
  match opts.inlineCharacterLimit with
  | none => s
  | some limit =>
    if (oneLinedOf s).length ≤ limit then oneLinedOf s
    else multiLinedOf opts pad s

/-- Per-character replacement of line terminators (src/index.ts line 206):
each newline becomes the two characters backslash-n, each carriage return
the two characters backslash-r. -/
def escapeLineTerms : List Char → List Char
  | [] => []
  | c :: rest =>
    if c = '\n' then '\\' :: 'n' :: escapeLineTerms rest
    else if c = '\r' then '\\' :: 'r' :: escapeLineTerms rest
    else c :: escapeLineTerms rest

/-- Per-character escaping of double quotes, the semantics of
`input.replace(/"/g, "\\\"")` (src/index.ts line 209). -/
def escDouble : List Char → List Char
  | [] => []
  | c :: rest =>
    if c = '"' then '\\' :: '"' :: escDouble rest
    else c :: escDouble rest

/-- The semantics of `input.replace(/\\?'/g, "\\'")` (src/index.ts line
213): scanning left to right, an optional backslash followed by a single
quote is replaced by backslash-quote; a backslash not followed by a quote
is left in place. -/
def escSingle : List Char → List Char
  | [] => []
  | '\\' :: '\x27' :: rest2 => '\\' :: '\x27' :: escSingle rest2
  | '\x27' :: rest => '\\' :: '\x27' :: escSingle rest
  | c :: rest => c :: escSingle rest

/-- The string fallback of the renderer (src/index.ts lines 206-214):
escape line terminators, then wrap in double quotes escaping embedded
double quotes, or wrap in single quotes escaping not-already-escaped
single quotes. -/
def quoteText (opts : PPOptions) (s : String) : String :=
  let t := escapeLineTerms s.data
  if opts.singleQuotes then String.mk ('\x27' :: (escSingle t ++ ['\x27']))
  else String.mk ('"' :: (escDouble t ++ ['"']))

/-- First character of a bare identifier key: `[a-z$_]` with the `i` flag,
i.e. an ASCII letter of either case, `$`, or `_`. -/
def isIdentStart (c : Char) : Bool :=
  c.isAlpha || c = '$' || c = '_'

/-- Later characters of a bare identifier key: `[a-z$_0-9]` with the `i`
flag. -/
def isIdentChar (c : Char) : Bool :=
  c.isAlpha || c.isDigit || c = '$' || c = '_'

/-- The test of the regular expression used at src/index.ts line 190 on a
string key. -/
def isClassicKey (s : String) : Bool :=
  match s.data with
  | [] => false
  | c :: rest => isIdentStart c && rest.all isIdentChar

/-- The literal text returned for a value found on the active rendering
chain (src/index.ts line 133). -/
def circularText : String := "\"[Circular]\""

/-- The key list of an object node as assembled at src/index.ts line 175:
`Object.keys` (own enumerable string-named properties, in order) followed
by the own enumerable symbol-named properties, each paired with its value
(`input[el]`). -/
def objEntries (sp : List (String × JVal)) (sy : List (String × Bool × JVal)) :
    List (JKey × JVal) :=
  sp.map (fun p => (JKey.str p.1, p.2)) ++
    (sy.filter (fun q => q.2.1)).map (fun q => (JKey.sym q.1, q.2.2))

/-- The key as handed to `filter`/`transform`. -/
def propOfKey : JKey → JProp
  | .str s => JProp.str s
  | .sym d => JProp.sym d

/-- Key filtering (src/index.ts lines 177-179): applied only when a filter
is configured. -/
def filterEntries (opts : PPOptions) (addr : Nat) (es : List (JKey × JVal)) :
    List (JKey × JVal) :=
  match opts.filter with
  | none => es
  | some fl => es.filter (fun e => fl addr (propOfKey e.1))

/-- Transform application (src/index.ts lines 162-164 and 194-196): applied
only when a transform is configured. -/
def applyTransform (opts : PPOptions) (addr : Nat) (p : JProp) (s : String) : String :=
  match opts.transform with
  | none => s
  | some t => t addr p s

/-- The key text of one object entry (src/index.ts lines 189-191): a symbol
key and a string key matching the identifier pattern are used as-is (via
`String(key)`, which for a symbol yields `Symbol(desc)`); any other string
key is rendered by the renderer itself as a string value, with empty pad —
`f` is the renderer. -/
def keyText (f : JVal → String → List Nat → Option (String × List Nat)) :
    JKey → List Nat → Option (String × List Nat)
  | .sym d, seen => some ("Symbol(" ++ d ++ ")", seen)
  | .str s, seen =>
    if isClassicKey s then some (s, seen) else f (.vstr s) "" seen

/-- The element loop of the array branch (src/index.ts lines 158-167):
`f` renders one element (with the child pad already applied), `tr` applies
the configured transform at an index, `n` is the array length and `i` the
current index; the visited list is threaded left to right exactly as the
mutation of the global `seen` proceeds. -/
def renderList (f : JVal → List Nat → Option (String × List Nat))
    (tr : Nat → String → String) (tok : Tokens) (n : Nat) :
    Nat → List JVal → List Nat → Option (String × List Nat)
  | _, [], seen => some ("", seen)
  | i, v :: rest, seen =>
    match f v seen with
    | none => none
    | some (s0, seen1) =>
      let s1 := tr i s0
      let eol := if n - 1 = i then tok.newLine else "," ++ tok.newLineOrSpace
      match renderList f tr tok n (i+1) rest seen1 with
      | none => none
      | some (s2, seen2) => some (tok.indent ++ s1 ++ eol ++ s2, seen2)

/-- The entry loop of the object branch (src/index.ts lines 187-199): for
each retained key, the key text is computed first (possibly a recursive
render), then the value is rendered with the child pad and passed through
the transform. -/
def renderEntries (f : JVal → String → List Nat → Option (String × List Nat))
    (tr : JProp → String → String) (tok : Tokens) (childPad : String) (n : Nat) :
    Nat → List (JKey × JVal) → List Nat → Option (String × List Nat)
  | _, [], seen => some ("", seen)
  | i, (k, v) :: rest, seen =>
    match keyText f k seen with
    | none => none
    | some (ks, seen1) =>
      match f v childPad seen1 with
      | none => none
      | some (vs0, seen2) =>
        let vs1 := tr (propOfKey k) vs0
        let eol := if n - 1 = i then tok.newLine else "," ++ tok.newLineOrSpace
        match renderEntries f tr tok childPad n (i+1) rest seen2 with
        | none => none
        | some (s2, seen3) => some (tok.indent ++ ks ++ ": " ++ vs1 ++ eol ++ s2, seen3)

/-- The renderer, `prettyPrint` (src/index.ts lines 84-215), over a heap of
composites, with the module-global `seen` threaded explicitly and a fuel
bound on the recursion depth.  The cycle check of line 132 only ever fires
for composites, since only composite references are pushed onto `seen` and
a primitive never compares identical to one.  The primitive cases return
`String(input)` (lines 136-145), dates their constructor-call form (lines
147-149); arrays and objects follow lines 151-204, the string fallback
lines 206-214. -/
def prettyPrint (heap : List JNode) (opts : PPOptions) :
    Nat → JVal → String → List Nat → Option (String × List Nat)
  | 0, _, _, _ => none
  | fuel+1, input, pad, seen =>
    match input with
    | .vnull => some ("null", seen)
    | .vundef => some ("undefined", seen)
    | .vnum s => some (s, seen)
    | .vbool b => some (cond b "true" "false", seen)
    | .vfunc s => some (s, seen)
    | .vsym d => some ("Symbol(" ++ d ++ ")", seen)
    | .vregexp s => some (s, seen)
    | .vdate iso => some ("new Date(\x27" ++ iso ++ "\x27)", seen)
    | .vstr s => some (quoteText opts s, seen)
    | .ref addr =>
      if seen.contains addr then some (circularText, seen)
      else
        let tok := mkTokens opts pad
        match heap[addr]? with
        | none => some ("", seen)
        | some (.arr elems) =>
          if elems.isEmpty then some ("[]", seen)
          else
            match renderList (fun v s => prettyPrint heap opts fuel v (pad ++ opts.indent) s)
                (fun i s => applyTransform opts addr (.idx i) s)
                tok elems.length 0 elems (addr :: seen) with
            | none => none
            | some (body, seen1) =>
              some (expandWS opts pad ("[" ++ tok.newLine ++ body ++ tok.pad ++ "]"),
                seen1.tail)
        | some (.obj sp sy) =>
          let entries := filterEntries opts addr (objEntries sp sy)
          if entries.isEmpty then some ("\x7b\x7d", seen)
          else
            match renderEntries (fun v p s => prettyPrint heap opts fuel v p s)
                (fun pr s => applyTransform opts addr pr s)
                tok (pad ++ opts.indent) entries.length 0 entries (addr :: seen) with
            | none => none
            | some (body, seen1) =>
              some (expandWS opts pad ("\x7b" ++ tok.newLine ++ body ++ tok.pad ++ "\x7d"),
                seen1.tail)

/-- The public entry point: empty pad, empty visited list, and enough fuel
for any value graph over `heap` (justified by `prettyPrint_total_aux`). -/
def render (heap : List JNode) (opts : PPOptions) (input : JVal) :
    Option (String × List Nat) :=
  prettyPrint heap opts (heap.length + 1) input "" []

/-- The rendered text of the public entry point. -/
def renderStr (heap : List JNode) (opts : PPOptions) (input : JVal) : String :=
  match render heap opts input with
  | some (s, _) => s
  | none => ""

/-- Number of heap addresses not yet on the visited list: the measure that
bounds the recursion depth of the renderer. -/
def freeCount (heap : List JNode) (seen : List Nat) : Nat :=
  ((List.range heap.length).filter (fun a => !(seen.contains a))).length

/-- Number of (possibly overlapping) occurrences of a pattern in a
character list; used to state substring facts about rendered output. -/
def countOccs (p : List Char) : List Char → Nat
  | [] => 0
  | c :: rest => (if p.isPrefixOf (c :: rest) then 1 else 0) + countOccs p rest

/-- Sanity check values used by several claims. -/
def heapSibling : List JNode :=
  [JNode.obj [("val", JVal.vnum "10")] [],
   JNode.obj [("foo", JVal.ref 0), ("bar", JVal.ref 0)] []]

example :
    render heapSibling defaultOpts (JVal.ref 1) =
      some ("\x7b\n\tfoo: \x7b\n\t\tval: 10\n\t\x7d,\n\tbar: \x7b\n\t\tval: 10\n\t\x7d\n\x7d", []) :=
  rfl

/-- Filtering with a pointwise-stronger predicate that rejects some member
of the list yields a strictly shorter list. -/
theorem length_filter_lt_of_mem (l : List Nat) (p q : Nat → Bool)
    (himp : ∀ a, p a = true → q a = true) (x : Nat) (hx : x ∈ l)
    (hqx : q x = true) (hpx : p x = false) :
    (l.filter p).length < (l.filter q).length := by
  induction l with
  | nil => cases hx
  | cons b t ih =>
    have hmono : (t.filter p).length ≤ (t.filter q).length :=
      (List.monotone_filter_right t himp).length_le
    rcases List.mem_cons.mp hx with hbx | hxt
    · subst hbx
      simp [List.filter_cons, hpx, hqx]
      omega
    · cases hpb : p b with
      | false =>
        have ih' := ih hxt
        cases hqb : q b <;> simp [List.filter_cons, hpb, hqb] <;> omega
      | true =>
        have hqb : q b = true := himp b hpb
        have ih' := ih hxt
        simp [List.filter_cons, hpb, hqb]
        omega

/-- Pushing a fresh valid address onto the visited list strictly decreases
the number of free addresses. -/
theorem freeCount_cons_lt (heap : List JNode) (seen : List Nat) (addr : Nat)
    (h1 : addr < heap.length) (h2 : addr ∉ seen) :
    freeCount heap (addr :: seen) < freeCount heap seen := by
  have h2' : seen.contains addr = false := by simpa using h2
  refine length_filter_lt_of_mem _ _ _ ?_ addr (List.mem_range.mpr h1) ?_ ?_
  · intro a ha
    have ha2 : (!((addr :: seen).contains a)) = true := ha
    have ha' : ((a == addr) || seen.contains a) = false := by
      have hac : (addr :: seen).contains a = false := by
        cases hca : (addr :: seen).contains a
        · rfl
        · rw [hca] at ha2; simp at ha2
      rw [List.contains_cons] at hac
      exact hac
    show (!(seen.contains a)) = true
    rw [(Bool.or_eq_false_iff.mp ha').2]
    rfl
  · show (!(seen.contains addr)) = true
    rw [h2']
    rfl
  · show (!((addr :: seen).contains addr)) = false
    simp [List.contains_cons]

/-- If the renderer preserves the visited list `sA`, so does the key-text
computation. -/
theorem keyText_pres (f : JVal → String → List Nat → Option (String × List Nat))
    (sA : List Nat) (H : ∀ v p, ∃ o, f v p sA = some (o, sA)) (k : JKey) :
    ∃ o, keyText f k sA = some (o, sA) := by
  cases k with
  | sym d => exact ⟨_, rfl⟩
  | str s =>
    cases hc : isClassicKey s with
    | true => exact ⟨s, by simp [keyText, hc]⟩
    | false =>
      obtain ⟨o, ho⟩ := H (.vstr s) ""
      exact ⟨o, by simp [keyText, hc, ho]⟩

/-- If the element renderer succeeds and preserves the visited list `sA`,
the array element loop succeeds and preserves it too. -/
theorem renderList_pres (f : JVal → List Nat → Option (String × List Nat))
    (tr : Nat → String → String) (tok : Tokens) (n : Nat) (sA : List Nat)
    (H : ∀ v, ∃ o, f v sA = some (o, sA)) :
    ∀ (elems : List JVal) (i : Nat),
    ∃ body, renderList f tr tok n i elems sA = some (body, sA) := by
  intro elems
  induction elems with
  | nil => intro i; exact ⟨"", rfl⟩
  | cons v rest ih =>
    intro i
    obtain ⟨o, ho⟩ := H v
    obtain ⟨b, hb⟩ := ih (i + 1)
    simp only [renderList, ho, hb]
    exact ⟨_, rfl⟩

/-- If the member renderer succeeds and preserves the visited list `sA`,
the object entry loop succeeds and preserves it too. -/
theorem renderEntries_pres (f : JVal → String → List Nat → Option (String × List Nat))
    (tr : JProp → String → String) (tok : Tokens) (childPad : String) (n : Nat)
    (sA : List Nat) (H : ∀ v p, ∃ o, f v p sA = some (o, sA)) :
    ∀ (es : List (JKey × JVal)) (i : Nat),
    ∃ body, renderEntries f tr tok childPad n i es sA = some (body, sA) := by
  intro es
  induction es with
  | nil => intro i; exact ⟨"", rfl⟩
  | cons e rest ih =>
    intro i
    obtain ⟨k, v⟩ := e
    obtain ⟨ks, hk⟩ := keyText_pres f sA H k
    obtain ⟨vs, hv⟩ := H v childPad
    obtain ⟨b, hb⟩ := ih (i + 1)
    simp only [renderEntries, hk, hv, hb]
    exact ⟨_, rfl⟩

/-- Totality and visited-list restoration, in one induction on the fuel:
whenever the fuel exceeds the number of heap addresses not yet visited,
the renderer returns a result and hands back the visited list exactly as
it received it — the push of src/index.ts lines 156/185 is always undone
by the pop of lines 169/201, on every exit path, for every option record
(hooks included). -/
theorem prettyPrint_total_aux (heap : List JNode) (opts : PPOptions) :
    ∀ (fuel : Nat) (input : JVal) (pad : String) (seen : List Nat),
    freeCount heap seen < fuel →
    ∃ out, prettyPrint heap opts fuel input pad seen = some (out, seen) := by
  intro fuel
  induction fuel with
  | zero => intro input pad seen h; omega
  | succ fuel ih =>
    intro input pad seen h
    cases input with
    | vnull => exact ⟨_, rfl⟩
    | vundef => exact ⟨_, rfl⟩
    | vnum s => exact ⟨_, rfl⟩
    | vbool b => exact ⟨_, rfl⟩
    | vfunc s => exact ⟨_, rfl⟩
    | vsym d => exact ⟨_, rfl⟩
    | vregexp s => exact ⟨_, rfl⟩
    | vdate iso => exact ⟨_, rfl⟩
    | vstr s => exact ⟨_, rfl⟩
    | ref addr =>
      by_cases hcm : addr ∈ seen
      · exact ⟨circularText, by simp [prettyPrint, hcm]⟩
      · cases hnode : heap[addr]? with
        | none => exact ⟨"", by simp [prettyPrint, hcm, hnode]⟩
        | some node =>
          have haddr : addr < heap.length := by
            by_contra hlt
            rw [List.getElem?_eq_none (by omega)] at hnode
            exact Option.noConfusion hnode
          have hfree : freeCount heap (addr :: seen) < fuel := by
            have := freeCount_cons_lt heap seen addr haddr hcm
            omega
          cases node with
          | arr elems =>
            by_cases he : elems = []
            · exact ⟨"[]", by simp [prettyPrint, hcm, hnode, he]⟩
            · obtain ⟨body, hb⟩ := renderList_pres
                (fun v s => prettyPrint heap opts fuel v (pad ++ opts.indent) s)
                (fun i s => applyTransform opts addr (.idx i) s)
                (mkTokens opts pad) elems.length (addr :: seen)
                (fun v => ih v (pad ++ opts.indent) (addr :: seen) hfree)
                elems 0
              have hee : elems.isEmpty = false := by simpa using he
              simp only [prettyPrint, hcm]
              rw [hnode]
              simp only [hee, hb, List.tail_cons, Bool.false_eq_true, if_false]
              rw [if_neg (show ¬ (seen.contains addr = true) by simpa using hcm)]
              exact ⟨_, rfl⟩
          | obj sp sy =>
            by_cases hE : filterEntries opts addr (objEntries sp sy) = []
            · exact ⟨"\x7b\x7d", by simp [prettyPrint, hcm, hnode, hE]⟩
            · obtain ⟨body, hb⟩ := renderEntries_pres
                (fun v p s => prettyPrint heap opts fuel v p s)
                (fun pr s => applyTransform opts addr pr s)
                (mkTokens opts pad) (pad ++ opts.indent)
                (filterEntries opts addr (objEntries sp sy)).length (addr :: seen)
                (fun v p => ih v p (addr :: seen) hfree)
                (filterEntries opts addr (objEntries sp sy)) 0
              have hEe : (filterEntries opts addr (objEntries sp sy)).isEmpty = false := by
                simpa using hE
              simp only [prettyPrint, hcm]
              rw [hnode]
              simp only [hEe, hb, List.tail_cons, Bool.false_eq_true, if_false]
              rw [if_neg (show ¬ (seen.contains addr = true) by simpa using hcm)]
              exact ⟨_, rfl⟩

/-- With nothing visited yet, every heap address is free. -/
theorem freeCount_nil (heap : List JNode) : freeCount heap [] = heap.length := by
  unfold freeCount
  rw [List.filter_eq_self.mpr]
  · exact List.length_range _
  · intro a _
    rfl

/-- The self-referencing sequence of the spec: `a = []; b = [a]; a[0] = a`
(address 0 is `a` after the mutation, address 1 is `b`). -/
def heapCyclic : List JNode :=
  [JNode.arr [JVal.ref 0], JNode.arr [JVal.ref 0]]

/-- Default options with an inline character limit. -/
def withLimit (n : Nat) : PPOptions :=
  PPOptions.mk "\t" true none none (some n)

/-- The object of the inline-compaction scenario. -/
def heapInline : List JNode :=
  [JNode.obj [("id", JVal.vnum "8"), ("name", JVal.vstr "Jane")] []]

/-- An empty array aliased from two sibling keys of one object. -/
def heapEmptyAlias : List JNode :=
  [JNode.arr [], JNode.obj [("a", JVal.ref 0), ("b", JVal.ref 0)] []]

/-- An object whose only property value is a string that contains the pad
sentinel. -/
def heapSentinelPad : List JNode :=
  [JNode.obj [("a", JVal.vstr "x@@__PRETTY_PRINT_PAD__@@y")] []]

/-- An object whose only property value is a string that contains the
newline sentinel. -/
def heapSentinelNL : List JNode :=
  [JNode.obj [("a", JVal.vstr "x@@__PRETTY_PRINT_NEW_LINE__@@y")] []]

/-- C1: with default options, a composite whose reference is already on the
active ancestor chain (a member of the visited list) renders as the literal
text `"[Circular]"`, quotes included, whatever the options; and the sibling
scenario `v = obj with val 10; obj = (foo: v, bar: v)` renders both
occurrences independently and in full: the output is the two-copy text,
which contains `val: 10` twice and `[Circular]` nowhere. -/
theorem claim_C1 :
    (∀ (heap : List JNode) (opts : PPOptions) (fuel addr : Nat) (pad : String)
      (seen : List Nat), addr ∈ seen →
      prettyPrint heap opts (fuel + 1) (JVal.ref addr) pad seen = some (circularText, seen))
    ∧ render heapSibling defaultOpts (JVal.ref 1) =
        some ("\x7b\n\tfoo: \x7b\n\t\tval: 10\n\t\x7d,\n\tbar: \x7b\n\t\tval: 10\n\t\x7d\n\x7d", [])
    ∧ countOccs "val: 10".data (renderStr heapSibling defaultOpts (JVal.ref 1)).data = 2
    ∧ countOccs "[Circular]".data (renderStr heapSibling defaultOpts (JVal.ref 1)).data = 0 := by
  refine ⟨?_, rfl, rfl, rfl⟩
  intro heap opts fuel addr pad seen h
  simp [prettyPrint, h]

/-- C1 witness: the ancestor-chain part of C1 applied at a concrete visited
list. -/
theorem claim_C1_witness :
    (0 : Nat) ∈ [0] ∧
      prettyPrint heapSibling defaultOpts 1 (JVal.ref 0) "" [0] = some (circularText, [0]) :=
  ⟨by decide, claim_C1.1 heapSibling defaultOpts 0 0 "" [0] (by decide)⟩

/-- C2: the renderer is total — for every heap (cyclic ones included),
every option record and every input value, the entry point returns a
result (the fuel `heap.length + 1` never runs out) and restores the
visited list; and the self-referencing sequence `a = []; b = [a]; a[0] = a`
renders with its back-reference slot as `"[Circular]"` rather than
failing. -/
theorem claim_C2 :
    (∀ (heap : List JNode) (opts : PPOptions) (input : JVal),
      ∃ out, render heap opts input = some (out, []))
    ∧ render heapCyclic defaultOpts (JVal.ref 1) =
        some ("[\n\t[\n\t\t\"[Circular]\"\n\t]\n]", []) := by
  refine ⟨?_, rfl⟩
  intro heap opts input
  refine prettyPrint_total_aux heap opts (heap.length + 1) input "" [] ?_
  rw [freeCount_nil]
  omega

/-- C4: the inline decision is an inclusive bound — with a configured
limit, `expandWhiteSpace` returns the one-line candidate exactly when its
length is at most the limit, and the multi-line form when it exceeds it;
rendering the `(id: 8, name: "Jane")` object with the limit at the exact
one-line length 21 yields the one-line form, and with the limit one below
yields the multi-line form. -/
theorem claim_C4 :
    (∀ (opts : PPOptions) (limit : Nat) (pad s : String),
      opts.inlineCharacterLimit = some limit →
      ((oneLinedOf s).length ≤ limit → expandWS opts pad s = oneLinedOf s) ∧
      (limit < (oneLinedOf s).length → expandWS opts pad s = multiLinedOf opts pad s))
    ∧ renderStr heapInline (withLimit 21) (JVal.ref 0) = "\x7bid: 8, name: \x27Jane\x27\x7d"
    ∧ renderStr heapInline (withLimit 20) (JVal.ref 0) =
        "\x7b\n\tid: 8,\n\tname: \x27Jane\x27\n\x7d"
    ∧ ("\x7bid: 8, name: \x27Jane\x27\x7d" : String).length = 21 := by
  refine ⟨?_, rfl, rfl, rfl⟩
  intro opts limit pad s hl
  constructor
  · intro hle
    simp only [expandWS, hl]
    rw [if_pos hle]
  · intro hgt
    simp only [expandWS, hl]
    rw [if_neg (by omega)]

/-- C4 witness: C4 applied with a concrete limit and candidate. -/
theorem claim_C4_witness :
    (withLimit 21).inlineCharacterLimit = some 21 ∧
      (oneLinedOf "abc").length ≤ 21 ∧
      expandWS (withLimit 21) "" "abc" = oneLinedOf "abc" :=
  ⟨rfl, by decide, (claim_C4.1 (withLimit 21) 21 "" "abc" rfl).1 (by decide)⟩

/-- C5: for every call on any heap with both hooks configured (arbitrary
filter and transform functions), and enough fuel, the renderer returns and
the visited list after the call is exactly the visited list at entry: the
push before member rendering is undone on every exit path. -/
theorem claim_C5 :
    ∀ (heap : List JNode) (ind : String) (sq : Bool)
      (fl : Nat → JProp → Bool) (tr : Nat → JProp → String → String)
      (lim : Option Nat) (fuel : Nat) (input : JVal) (pad : String) (seen : List Nat),
      freeCount heap seen < fuel →
      ∃ out, prettyPrint heap (PPOptions.mk ind sq (some fl) (some tr) lim)
          fuel input pad seen = some (out, seen) :=
  fun heap ind sq fl tr lim fuel input pad seen h =>
    prettyPrint_total_aux heap (PPOptions.mk ind sq (some fl) (some tr) lim)
      fuel input pad seen h

/-- C5 witness: C5 applied at a concrete heap, hooks, and visited list. -/
theorem claim_C5_witness :
    freeCount heapSibling [5] < 3 ∧
      ∃ out, prettyPrint heapSibling
          (PPOptions.mk "\t" true (some (fun _ _ => true)) (some (fun _ _ s => s)) none)
          3 (JVal.ref 1) "" [5] = some (out, [5]) :=
  ⟨by decide,
    claim_C5 heapSibling "\t" true (fun _ _ => true) (fun _ _ s => s) none
      3 (JVal.ref 1) "" [5] (by decide)⟩

/-- C7: an empty sequence renders as `[]` and a keyed composite whose
retained key list after filtering is empty renders as `(empty braces)`,
in both cases with the visited list returned untouched (no push/pop ever
happens); and the aliased-empty-array example renders with no circular
marker. -/
theorem claim_C7 :
    (∀ (heap : List JNode) (opts : PPOptions) (fuel addr : Nat) (pad : String)
      (seen : List Nat),
      heap[addr]? = some (JNode.arr []) → addr ∉ seen →
      prettyPrint heap opts (fuel + 1) (JVal.ref addr) pad seen = some ("[]", seen))
    ∧ (∀ (heap : List JNode) (opts : PPOptions) (fuel addr : Nat) (pad : String)
        (seen : List Nat) (sp : List (String × JVal)) (sy : List (String × Bool × JVal)),
      heap[addr]? = some (JNode.obj sp sy) →
      filterEntries opts addr (objEntries sp sy) = [] → addr ∉ seen →
      prettyPrint heap opts (fuel + 1) (JVal.ref addr) pad seen = some ("\x7b\x7d", seen))
    ∧ render heapEmptyAlias defaultOpts (JVal.ref 1) =
        some ("\x7b\n\ta: [],\n\tb: []\n\x7d", [])
    ∧ countOccs "[Circular]".data (renderStr heapEmptyAlias defaultOpts (JVal.ref 1)).data
        = 0 := by
  refine ⟨?_, ?_, rfl, rfl⟩
  · intro heap opts fuel addr pad seen hnode hmem
    simp [prettyPrint, hmem, hnode]
  · intro heap opts fuel addr pad seen sp sy hnode hflt hmem
    simp [prettyPrint, hmem, hnode, hflt]

/-- C7 witness: both parts of C7 applied at concrete empty composites (the
object made nonempty but emptied by an all-rejecting filter). -/
theorem claim_C7_witness :
    prettyPrint [JNode.arr []] defaultOpts 1 (JVal.ref 0) "" [] = some ("[]", []) ∧
      prettyPrint [JNode.obj [("a", JVal.vnum "1")] []]
        (PPOptions.mk "\t" true (some (fun _ _ => false)) none none)
        1 (JVal.ref 0) "" [] = some ("\x7b\x7d", []) :=
  ⟨claim_C7.1 [JNode.arr []] defaultOpts 0 0 "" [] rfl (by decide),
    claim_C7.2.1 [JNode.obj [("a", JVal.vnum "1")] []]
      (PPOptions.mk "\t" true (some (fun _ _ => false)) none none)
      0 0 "" [] [("a", JVal.vnum "1")] [] rfl (by decide) (by decide)⟩

/-- C10: the compaction pass substitutes sentinel occurrences that
originate from user-supplied string values: a property value containing
the pad sentinel has it deleted in the inlined output, a value containing
the newline sentinel has it turned into a newline in the multi-line
output, so the rendered output does not preserve those strings. -/
theorem claim_C10 :
    renderStr heapSentinelPad (withLimit 100) (JVal.ref 0) = "\x7ba: \x27xy\x27\x7d"
    ∧ renderStr heapSentinelNL (withLimit 0) (JVal.ref 0) =
        "\x7b\n\ta: \x27x\ny\x27\n\x7d"
    ∧ countOccs "@@__PRETTY_PRINT_PAD__@@".data
        (renderStr heapSentinelPad (withLimit 100) (JVal.ref 0)).data = 0 :=
  ⟨rfl, rfl, rfl⟩

/-- An object with two string keys (in enumeration order b, a), one
enumerable symbol key and one non-enumerable symbol key. -/
def heapSyms : List JNode :=
  [JNode.obj [("b", JVal.vnum "1"), ("a", JVal.vnum "2")]
    [("s1", true, JVal.vnum "3"), ("s0", false, JVal.vnum "4")]]

/-- An object with one identifier-pattern key and one key that needs
quoting. -/
def heapKeys : List JNode :=
  [JNode.obj [("foo", JVal.vnum "1"), ("foo-bar", JVal.vnum "2")] []]

/-- C6: the rendered key list is the ordered union of the own enumerable
string-named properties (in enumeration order) followed by the own
enumerable symbol-named properties (in discovery order); every symbol key
that makes it into the entry list comes from an enumerable symbol
property, so non-enumerable symbol keys never appear; and on the concrete
mixed object the output lists b, a, Symbol(s1) in exactly that order with
the non-enumerable s0 (and its value 4) absent.  Determinism across
repeated calls holds because the renderer is a pure function of the heap
and options. -/
theorem claim_C6 :
    (∀ (sp : List (String × JVal)) (sy : List (String × Bool × JVal)),
      (objEntries sp sy).map Prod.fst =
        sp.map (fun p => JKey.str p.1) ++
          (sy.filter (fun q => q.2.1)).map (fun q => JKey.sym q.1))
    ∧ (∀ (sp : List (String × JVal)) (sy : List (String × Bool × JVal)) (d : String)
        (v : JVal),
      (JKey.sym d, v) ∈ objEntries sp sy → ∃ q ∈ sy, q.1 = d ∧ q.2.1 = true ∧ q.2.2 = v)
    ∧ renderStr heapSyms defaultOpts (JVal.ref 0) =
        "\x7b\n\tb: 1,\n\ta: 2,\n\tSymbol(s1): 3\n\x7d"
    ∧ countOccs "s0".data (renderStr heapSyms defaultOpts (JVal.ref 0)).data = 0
    ∧ countOccs "4".data (renderStr heapSyms defaultOpts (JVal.ref 0)).data = 0 := by
  refine ⟨?_, ?_, rfl, rfl, rfl⟩
  · intro sp sy
    simp only [objEntries, List.map_append, List.map_map]
    rfl
  · intro sp sy d v h
    simp only [objEntries, List.mem_append, List.mem_map, List.mem_filter] at h
    rcases h with ⟨p, hp, hpe⟩ | ⟨q, ⟨hqmem, hqen⟩, hqe⟩
    · simp at hpe
    · simp only [Prod.mk.injEq, JKey.sym.injEq] at hqe
      exact ⟨q, hqmem, hqe.1, hqen, hqe.2⟩

/-- C6 witness: the non-enumerable-exclusion part of C6 applied at a
concrete entry list. -/
theorem claim_C6_witness :
    (JKey.sym "s1", JVal.vnum "3") ∈ objEntries [] [("s1", true, JVal.vnum "3")] ∧
      ∃ q ∈ [("s1", true, JVal.vnum "3")],
        q.1 = "s1" ∧ q.2.1 = true ∧ q.2.2 = JVal.vnum "3" :=
  ⟨by decide, claim_C6.2.1 [] [("s1", true, JVal.vnum "3")] "s1" (JVal.vnum "3") (by decide)⟩

/-- C8: a string key is emitted bare exactly when it matches the
identifier pattern (nonempty, ASCII letter or dollar or underscore first,
then letters, digits, dollar, underscore); every other string key goes
through the very same string-rendering call used for text values; and the
concrete object with keys foo and foo-bar renders the first bare and the
second quoted. -/
theorem claim_C8 :
    (∀ (heap : List JNode) (opts : PPOptions) (fuel : Nat) (s : String) (seen : List Nat),
      isClassicKey s = true →
      keyText (fun v p sn => prettyPrint heap opts fuel v p sn) (JKey.str s) seen
        = some (s, seen))
    ∧ (∀ (heap : List JNode) (opts : PPOptions) (fuel : Nat) (s : String) (seen : List Nat),
      isClassicKey s = false →
      keyText (fun v p sn => prettyPrint heap opts fuel v p sn) (JKey.str s) seen
        = prettyPrint heap opts fuel (JVal.vstr s) "" seen)
    ∧ isClassicKey "" = false
    ∧ (∀ (c : Char) (cs : List Char),
      isClassicKey (String.mk (c :: cs)) =
        ((c.isAlpha || c = '$' || c = '_') &&
          cs.all (fun d => d.isAlpha || d.isDigit || d = '$' || d = '_')))
    ∧ renderStr heapKeys defaultOpts (JVal.ref 0) =
        "\x7b\n\tfoo: 1,\n\t\x27foo-bar\x27: 2\n\x7d" := by
  refine ⟨?_, ?_, rfl, fun c cs => rfl, rfl⟩
  · intro heap opts fuel s seen h
    simp [keyText, h]
  · intro heap opts fuel s seen h
    simp [keyText, h]

/-- C8 witness: both key-rendering parts of C8 applied at concrete keys. -/
theorem claim_C8_witness :
    isClassicKey "foo" = true ∧
      keyText (fun v p sn => prettyPrint [] defaultOpts 1 v p sn) (JKey.str "foo") []
        = some ("foo", []) ∧
      isClassicKey "foo-bar" = false ∧
      keyText (fun v p sn => prettyPrint [] defaultOpts 1 v p sn) (JKey.str "foo-bar") []
        = prettyPrint [] defaultOpts 1 (JVal.vstr "foo-bar") "" [] :=
  ⟨by decide, claim_C8.1 [] defaultOpts 1 "foo" [] (by decide),
    by decide, claim_C8.2.1 [] defaultOpts 1 "foo-bar" [] (by decide)⟩

/-- The array element loop depends on the element renderer only through
its values. -/
theorem renderList_congr (f1 f2 : JVal → List Nat → Option (String × List Nat))
    (tr : Nat → String → String) (tok : Tokens) (n : Nat)
    (h : ∀ v s, f1 v s = f2 v s) :
    ∀ (elems : List JVal) (i : Nat) (seen : List Nat),
    renderList f1 tr tok n i elems seen = renderList f2 tr tok n i elems seen := by
  intro elems
  induction elems with
  | nil => intro i seen; rfl
  | cons v rest ih =>
    intro i seen
    simp only [renderList, h v seen]
    cases f2 v seen with
    | none => rfl
    | some p =>
      obtain ⟨s0, seen1⟩ := p
      simp only [ih (i + 1) seen1]

/-- On a heap that holds only array nodes, the renderer never consults the
filter: any two filters (present or absent) give identical output, because
the filter is only read in the object branch. -/
theorem prettyPrint_filter_irrel_aux (heap : List JNode)
    (hall : ∀ n ∈ heap, ∃ elems, n = JNode.arr elems)
    (ind : String) (sq : Bool) (fl fl' : Option (Nat → JProp → Bool))
    (tr : Option (Nat → JProp → String → String)) (lim : Option Nat) :
    ∀ (fuel : Nat) (input : JVal) (pad : String) (seen : List Nat),
    prettyPrint heap (PPOptions.mk ind sq fl tr lim) fuel input pad seen =
      prettyPrint heap (PPOptions.mk ind sq fl' tr lim) fuel input pad seen := by
  intro fuel
  induction fuel with
  | zero => intro input pad seen; rfl
  | succ fuel ih =>
    intro input pad seen
    cases input with
    | vnull => rfl
    | vundef => rfl
    | vnum s => rfl
    | vbool b => rfl
    | vfunc s => rfl
    | vsym d => rfl
    | vregexp s => rfl
    | vdate iso => rfl
    | vstr s => rfl
    | ref addr =>
      by_cases hcm : addr ∈ seen
      · simp [prettyPrint, hcm]
      · cases hnode : heap[addr]? with
        | none => simp [prettyPrint, hcm, hnode]
        | some node =>
          obtain ⟨elems, rfl⟩ := hall node (List.getElem?_mem hnode)
          by_cases he : elems = []
          · simp [prettyPrint, hcm, hnode, he]
          · have hee : elems.isEmpty = false := by simpa using he
            have hnc : ¬ (seen.contains addr = true) := by simpa using hcm
            have hrc := renderList_congr
              (fun v s =>
                prettyPrint heap (PPOptions.mk ind sq fl tr lim) fuel v (pad ++ ind) s)
              (fun v s =>
                prettyPrint heap (PPOptions.mk ind sq fl' tr lim) fuel v (pad ++ ind) s)
              (fun i s =>
                applyTransform (PPOptions.mk ind sq fl tr lim) addr (JProp.idx i) s)
              (mkTokens (PPOptions.mk ind sq fl tr lim) pad) elems.length
              (fun v s => ih v (pad ++ ind) s)
              elems 0 (addr :: seen)
            simp only [prettyPrint, if_neg hnc]
            rw [hnode]
            simp only [hee, Bool.false_eq_true, if_false, hrc]
            rfl

/-- Default options extended with a filter that rejects every key. -/
def optsRejectAll : PPOptions :=
  PPOptions.mk "\t" true (some (fun _ _ => false)) none none

/-- A heap holding a single two-element array of numbers. -/
def heapNums : List JNode :=
  [JNode.arr [JVal.vnum "1", JVal.vnum "2"]]

/-- C9: the filter option is never applied to ordered-sequence elements:
on any heap consisting solely of array nodes, rendering under an arbitrary
configured filter equals rendering with no filter at all (the filter is
consulted only for keys of keyed composites); concretely, an all-rejecting
filter still renders both elements of a two-number array, identically to
the default options. -/
theorem claim_C9 :
    (∀ (heap : List JNode), (∀ n ∈ heap, ∃ elems, n = JNode.arr elems) →
      ∀ (ind : String) (sq : Bool) (fl : Nat → JProp → Bool)
        (tr : Option (Nat → JProp → String → String)) (lim : Option Nat)
        (fuel : Nat) (input : JVal) (pad : String) (seen : List Nat),
      prettyPrint heap (PPOptions.mk ind sq (some fl) tr lim) fuel input pad seen =
        prettyPrint heap (PPOptions.mk ind sq none tr lim) fuel input pad seen)
    ∧ render heapNums optsRejectAll (JVal.ref 0) = some ("[\n\t1,\n\t2\n]", [])
    ∧ renderStr heapNums optsRejectAll (JVal.ref 0) =
        renderStr heapNums defaultOpts (JVal.ref 0) := by
  refine ⟨?_, rfl, rfl⟩
  intro heap hall ind sq fl tr lim fuel input pad seen
  exact prettyPrint_filter_irrel_aux heap hall ind sq (some fl) none tr lim
    fuel input pad seen

/-- C9 witness: C9 applied to the concrete all-array heap with the
all-rejecting filter. -/
theorem claim_C9_witness :
    prettyPrint heapNums (PPOptions.mk "\t" true (some (fun _ _ => false)) none none) 2
        (JVal.ref 0) "" [] =
      prettyPrint heapNums (PPOptions.mk "\t" true none none none) 2 (JVal.ref 0) "" [] :=
  claim_C9.1 heapNums
    (fun _ hn => ⟨[JVal.vnum "1", JVal.vnum "2"], List.mem_singleton.mp hn⟩)
    "\t" true (fun _ _ => false) none none 2 (JVal.ref 0) "" []

/-- Standard string-literal escape semantics for one escaped character, as
referenced by the round-trip claim (this is the spec-side interpreter, not
code of the repository): backslash-n denotes a newline, backslash-r a
carriage return, and a backslash before any other character denotes that
character itself (covering the escaped quote and escaped backslash). -/
def unescChar (c : Char) : Char :=
  if c = 'n' then '\n' else if c = 'r' then '\r' else c

/-- Parse the body of a quoted literal whose closing quote is `q`: a
backslash starts an escape pair interpreted by `unescChar`, an unescaped
`q` must be the final character, any other character denotes itself.
Returns `none` for an untermimated or overlong literal. -/
def parseLit (q : Char) : List Char → Option (List Char)
  | [] => none
  | c :: rest =>
    if c = '\\' then
      match rest with
      | [] => none
      | e :: rest2 =>
        match parseLit q rest2 with
        | none => none
        | some out => some (unescChar e :: out)
    else if c = q then (if rest.isEmpty then some [] else none)
    else
      match parseLit q rest with
      | none => none
      | some out => some (c :: out)

/-- Interpret a rendered quoted literal (opening quote, body, closing
quote) back to the string it denotes under the standard escape
semantics. -/
def unquoteLit (q : Char) (s : String) : Option String :=
  match s.data with
  | [] => none
  | c :: rest => if c = q then (parseLit q rest).map String.mk else none

/-- Stepping the literal parser over an ordinary character (not a
backslash, not the closing quote). -/
theorem parseLit_cons_other (q c : Char) (h1 : c ≠ '\\') (h2 : c ≠ q) (X : List Char) :
    parseLit q (c :: X) =
      match parseLit q X with
      | none => none
      | some out => some (c :: out) := by
  rw [parseLit.eq_def]
  simp only [if_neg h1, if_neg h2]

/-- Round trip of the single-quote escaping path on backslash-free
strings: line-terminator escaping followed by quote escaping parses back
to the original character list. -/
theorem parse_escSingle (l : List Char) (hl : '\\' ∉ l) :
    parseLit '\x27' (escSingle (escapeLineTerms l) ++ ['\x27']) = some l := by
  induction l with
  | nil => rfl
  | cons c t ih =>
    have hc : c ≠ '\\' := fun h => hl (h ▸ List.mem_cons_self c t)
    have ht : '\\' ∉ t := fun h => hl (List.mem_cons_of_mem c h)
    have iht := ih ht
    by_cases h1 : c = '\n'
    · subst h1
      simp [escapeLineTerms, escSingle, parseLit, unescChar, iht]
    · by_cases h2 : c = '\r'
      · subst h2
        simp [escapeLineTerms, escSingle, parseLit, unescChar, iht]
      · by_cases h3 : c = '\x27'
        · subst h3
          simp [escapeLineTerms, escSingle, parseLit, unescChar, iht]
        · simp [escapeLineTerms, escSingle, parseLit, unescChar, h1, h2, h3, hc, iht,
            parseLit_cons_other '\x27' c hc h3]

/-- Round trip of the double-quote escaping path on backslash-free
strings. -/
theorem parse_escDouble (l : List Char) (hl : '\\' ∉ l) :
    parseLit '"' (escDouble (escapeLineTerms l) ++ ['"']) = some l := by
  induction l with
  | nil => rfl
  | cons c t ih =>
    have hc : c ≠ '\\' := fun h => hl (h ▸ List.mem_cons_self c t)
    have ht : '\\' ∉ t := fun h => hl (List.mem_cons_of_mem c h)
    have iht := ih ht
    by_cases h1 : c = '\n'
    · subst h1
      simp [escapeLineTerms, escDouble, parseLit, unescChar, iht]
    · by_cases h2 : c = '\r'
      · subst h2
        simp [escapeLineTerms, escDouble, parseLit, unescChar, iht]
      · by_cases h3 : c = '"'
        · subst h3
          simp [escapeLineTerms, escDouble, parseLit, unescChar, iht]
        · simp [escapeLineTerms, escDouble, parseLit, unescChar, h1, h2, h3, hc, iht,
            parseLit_cons_other '"' c hc h3]

/-- Rebuilding a string from its character list is the identity. -/
theorem mk_data_eq (s : String) : String.mk s.data = s := rfl

/-- C3 counterexample: the round-trip claim fails as stated.  The
one-character string consisting of a single backslash renders in the
default (single-quote) mode to a literal that does not parse back to it —
the backslash is left unescaped, so the parser sees an escaped closing
quote and an unterminated literal. -/
theorem claim_C3_counterexample :
    prettyPrint [] defaultOpts 1 (JVal.vstr "\\") "" [] = some ("\x27\\\x27", []) ∧
      unquoteLit '\x27' "\x27\\\x27" ≠ some "\\" :=
  ⟨rfl, by decide⟩

/-- C3 (amended): for every string containing no backslash character, the
rendered quoted literal parses back to the original string under the
standard escape semantics, in the default single-quote mode and in the
double-quote mode alike.  (For strings containing a backslash the
round trip can fail, as the counterexample shows: the escaping never
escapes backslashes themselves.) -/
theorem claim_C3 :
    ∀ (s : String), '\\' ∉ s.data →
      (∃ out, prettyPrint [] defaultOpts 1 (JVal.vstr s) "" [] = some (out, []) ∧
        unquoteLit '\x27' out = some s) ∧
      (∃ out, prettyPrint [] (PPOptions.mk "\t" false none none none) 1 (JVal.vstr s) "" []
          = some (out, []) ∧ unquoteLit '"' out = some s) := by
  intro s hs
  constructor
  · refine ⟨quoteText defaultOpts s, rfl, ?_⟩
    have hq : quoteText defaultOpts s =
        String.mk ('\x27' :: (escSingle (escapeLineTerms s.data) ++ ['\x27'])) := rfl
    rw [hq]
    simp [unquoteLit, parse_escSingle s.data hs, mk_data_eq]
  · refine ⟨quoteText (PPOptions.mk "\t" false none none none) s, rfl, ?_⟩
    have hq : quoteText (PPOptions.mk "\t" false none none none) s =
        String.mk ('"' :: (escDouble (escapeLineTerms s.data) ++ ['"'])) := rfl
    rw [hq]
    simp [unquoteLit, parse_escDouble s.data hs, mk_data_eq]

/-- C3 witness: the amended round trip applied at a concrete
backslash-free string containing a quote, a double quote and a newline. -/
theorem claim_C3_witness :
    ('\\' ∉ ("a\x27b\"c\nd" : String).data) ∧
      ((∃ out, prettyPrint [] defaultOpts 1 (JVal.vstr "a\x27b\"c\nd") "" [] =
          some (out, []) ∧ unquoteLit '\x27' out = some "a\x27b\"c\nd") ∧
        (∃ out, prettyPrint [] (PPOptions.mk "\t" false none none none) 1
            (JVal.vstr "a\x27b\"c\nd") "" [] = some (out, []) ∧
          unquoteLit '"' out = some "a\x27b\"c\nd")) :=
  ⟨by decide, claim_C3 "a\x27b\"c\nd" (by decide)⟩

end PrettyPrintObject
